import Mathlib

/-!
Verification of the cache-consistency and partial-update layer of the
task-manager application (`src/app.py`): the in-memory Cache Mirror, the
derived Signature Index, the mutation primitives (append, single-cell
update, row delete) and the save-batch reconciliation loops.

The embedding is shallow: pandas DataFrame rows become `List String`
aligned with the fixed 7-column schema, the Python dict backing the
Signature Index becomes an insertion-ordered association list with
Python-dict semantics (assignment keeps the position of an existing key,
`setdefault` appends only when absent, iteration follows insertion
order), the remote spreadsheet becomes a cell grid plus an explicit list
of remote operations issued, and remote failures are injected as
`Except` parameters.
-/

set_option maxHeartbeats 1000000

namespace TaskApp

/-! ## Row schema (app.py lines 315-316) -/

/-- `COLS` from app.py: the fixed canonical column order. -/
def COLS : List String :=
  ["task", "description", "assigned_to", "assigned_by", "due_date", "status", "created_at"]

/-- 0-based position of a column name in the canonical order. -/
def colPos (c : String) : Nat := COLS.indexOf c

/-- `COL_IDX` from app.py: 1-based column number for the remote API. -/
def COL_IDX (c : String) : Nat := colPos c + 1

/-- Read one cell of a mirror row by column name (missing cells read as ""). -/
def getCol (r : List String) (c : String) : String := r.getD (colPos c) ""

/-- Write one cell of a mirror row by column name (`df.at[i, col] = value`). -/
def setCol (r : List String) (c : String) (v : String) : List String :=
  r.set (colPos c) v

/-- Dictionary lookup with default, `row.get(key, default)` on a raw record. -/
def lookupD (l : List (String × String)) (k : String) (d : String) : String :=
  ((l.find? (fun p => decide (p.1 = k))).map (·.2)).getD d

/-- Normalization of one raw remote record to the canonical 7-column row:
`pd.DataFrame(data)` followed by adding missing canonical columns as `""`,
reindexing to `COLS` and `fillna("")` (app.py lines 337-345). -/
def rawToRow (raw : List (String × String)) : List String :=
  COLS.map (fun c => lookupD raw c "")

/-! ## Signature Index: Python dict model

The Python dict used by `build_index_map` is modelled as an association
list in insertion order.  `dictInsert` is `d[k] = v` (replace in place if
present, else append), `dictSetdefault` is `d.setdefault(k, v)` (append
only if absent), `dictFind?` is `d[k]` lookup, and the association-list
order is the dict's iteration order (used by the final fallback scan of
`find_task_index_by_signature`). -/

/-- A signature key: `(created_at, assigned_by, task)` where any part may
be `None` (degraded keys use `None` parts). -/
abbrev Key := Option String × Option String × Option String

abbrev IndexMap := List (Key × Nat)

/-- `d[k] = v` on a Python dict: replace the value of an existing key in
place, otherwise append the new pair at the end. -/
def dictInsert : IndexMap → Key → Nat → IndexMap
  | [], k, v => [(k, v)]
  | p :: rest, k, v => if p.1 = k then (k, v) :: rest else p :: dictInsert rest k v

/-- `d.setdefault(k, v)` on a Python dict: append only when absent. -/
def dictSetdefault : IndexMap → Key → Nat → IndexMap
  | [], k, v => [(k, v)]
  | p :: rest, k, v => if p.1 = k then p :: rest else p :: dictSetdefault rest k v

/-- `k in d` / `d[k]` lookup. -/
def dictFind? (d : IndexMap) (k : Key) : Option Nat :=
  (d.find? (fun p => decide (p.1 = k))).map (·.2)

/-- The full exact key of a mirror row:
`(created_at, assigned_by, task)`. -/
def fullKeyOf (r : List String) : Key :=
  (some (getCol r "created_at"), some (getCol r "assigned_by"), some (getCol r "task"))

/-- The first degraded key of a row: `(created_at, assigned_by, None)`. -/
def deg1KeyOf (r : List String) : Key :=
  (some (getCol r "created_at"), some (getCol r "assigned_by"), none)

/-- The second degraded key of a row: `(None, assigned_by, task)`. -/
def deg2KeyOf (r : List String) : Key :=
  (none, some (getCol r "assigned_by"), some (getCol r "task"))

/-- Loop body of `build_index_map` (app.py lines 366-373), iterated over
rows with their 0-based positions: `idx[(created_at, assigned_by, task)] = i`
then `idx.setdefault((created_at, assigned_by, None), i)` then
`idx.setdefault((None, assigned_by, task), i)`. -/
def build_index_aux : List (List String) → Nat → IndexMap → IndexMap
  | [], _, idx => idx
  | r :: rest, i, idx =>
    build_index_aux rest (i + 1)
      (dictSetdefault
        (dictSetdefault (dictInsert idx (fullKeyOf r) i) (deg1KeyOf r) i)
        (deg2KeyOf r) i)

/-- `build_index_map` (app.py lines 354-376) as a function of the cached
mirror: full key inserted with overwrite, the two degraded keys with
`setdefault`. An empty (or absent) mirror yields the empty index. -/
def build_index_map (df : List (List String)) : IndexMap :=
  build_index_aux df 0 []

/-- `find_task_index_by_signature` (app.py lines 379-398): probe the exact
key, then `(created_at, assigned_by, None)`, then `(None, assigned_by,
task)`; as a final fallback scan the index in insertion order for any key
whose first component equals `created_at`. -/
def find_task_index_by_signature (idx : IndexMap)
    (created_at_ts assigned_by_val task_name : Option String) : Option Nat :=
  match dictFind? idx (created_at_ts, assigned_by_val, task_name) with
  | some v => some v
  | none =>
    match dictFind? idx (created_at_ts, assigned_by_val, none) with
    | some v => some v
    | none =>
      match dictFind? idx (none, assigned_by_val, task_name) with
      | some v => some v
      | none =>
        (idx.find? (fun p => decide (p.1.1 = created_at_ts))).map (·.2)

/-! ## Remote spreadsheet model

The gspread worksheet is modelled as a total cell grid (1-based row and
column coordinates, row 1 = header) plus a row count, and every primitive
additionally returns the list of remote calls it issued. Remote failures
are injected as `Except` parameters where the code handles them. -/

@[ext]
structure Grid where
  cells : Nat → Nat → String
  nrows : Nat

/-- `sheet.update_cell(row, col, value)`. -/
def gUpdateCell (g : Grid) (r c : Nat) (v : String) : Grid :=
  { g with cells := fun r' c' => if r' = r ∧ c' = c then v else g.cells r' c' }

/-- `sheet.append_row(values)`. -/
def gAppendRow (g : Grid) (vals : List String) : Grid :=
  { cells := fun r c => if r = g.nrows + 1 then vals.getD (c - 1) "" else g.cells r c,
    nrows := g.nrows + 1 }

/-- `sheet.delete_rows(row)`: later rows shift up by one. -/
def gDeleteRow (g : Grid) (r : Nat) : Grid :=
  { cells := fun r' c => if r' < r then g.cells r' c else g.cells (r' + 1) c,
    nrows := g.nrows - 1 }

/-- `sheet.clear()`. -/
def gClear (_g : Grid) : Grid := { cells := fun _ _ => "", nrows := 0 }

/-- `sheet.update(payload)`: full rewrite starting at row 1. -/
def gUpdateAll (_g : Grid) (payload : List (List String)) : Grid :=
  { cells := fun r c => (payload.getD (r - 1) []).getD (c - 1) "",
    nrows := payload.length }

/-- One remote call, as issued by the primitives. -/
inductive RemoteOp where
  | updateCellOp (rowNum colNum : Nat) (value : String)
  | appendRowOp (values : List String)
  | deleteRowsOp (rowNum : Nat)
  | clearOp
  | updateAllOp (payload : List (List String))
deriving DecidableEq, Repr

/-- The per-session state: remote grid, Cache Mirror
(`st.session_state["tasks_cache"]`, absent = `none`) and Signature Index
(`st.session_state["tasks_index_map"]`). -/
structure AppState where
  grid : Grid
  cache : Option (List (List String))
  indexMap : IndexMap

/-- One audit record as queued by `log_audit` (app.py lines 303-310); the
wall-clock timestamp is omitted. Audit failures are swallowed by the code,
so the record list models the best-effort audit sink. -/
structure AuditRec where
  action : String
  task : String
  user : String
  oldValue : String
  newValue : String
deriving DecidableEq, Repr

/-! ## Cache load (app.py lines 321-351) -/

/-- `load_tasks_from_sheet(force_reload)`. The remote read
`sheet.get_all_records(default_blank="")` is injected as `readResult`;
a raised read error propagates before any session-state assignment, so
the state is returned unchanged in that case. -/
def load_tasks_from_sheet (force : Bool)
    (readResult : Except String (List (List (String × String))))
    (s : AppState) : AppState × Except String (List (List String)) :=
  match force, s.cache with
  | false, some df => (s, .ok df)
  | _, _ =>
    match readResult with
    | .error e => (s, .error e)
    | .ok data =>
      let df := data.map rawToRow
      ({ s with cache := some df, indexMap := build_index_map df }, .ok df)

/-! ## Mutation primitives (app.py lines 404-474) -/

/-- `append_task_to_sheet(row)` (app.py lines 404-430). `headers` models
`sheet.row_values(1)`; `readResult` models the remote read that the
`cache is None` branch performs through `load_tasks_from_sheet(True)`.
Returns the new state, the remote ops issued, and the returned position
(`len(cache) - 1`). -/
def append_task_to_sheet (headers : List String) (row : List (String × String))
    (readResult : Except String (List (List (String × String))))
    (s : AppState) : AppState × List RemoteOp × Except String Nat :=
  let values := headers.map (fun h => lookupD row h "")
  let s1 := { s with grid := gAppendRow s.grid values }
  let ops := [RemoteOp.appendRowOp values]
  match s1.cache with
  | none =>
    match load_tasks_from_sheet true readResult s1 with
    | (s2, .error e) => (s2, ops, .error e)
    | (s2, .ok df) => (s2, ops, .ok (df.length - 1))
  | some df =>
    let df' := df ++ [values]
    ({ s1 with cache := some df', indexMap := build_index_map df' }, ops,
      .ok (df'.length - 1))

/-- `update_single_cell_in_sheet(row_idx_zero_based, col_name, value)`
(app.py lines 433-447): remote write at `(row_idx + 2, COL_IDX[col])`,
then the local patch, which is guarded by `row_idx < len(df)`. -/
def update_single_cell_in_sheet (s : AppState) (row_idx_zero_based : Nat)
    (col_name : String) (value : String) : AppState × List RemoteOp :=
  let row_num := row_idx_zero_based + 2
  let col_num := COL_IDX col_name
  let g := gUpdateCell s.grid row_num col_num value
  let ops := [RemoteOp.updateCellOp row_num col_num value]
  match s.cache with
  | some df =>
    if row_idx_zero_based < df.length then
      let df' := df.set row_idx_zero_based (setCol (df.getD row_idx_zero_based []) col_name value)
      ({ grid := g, cache := some df', indexMap := build_index_map df' }, ops)
    else ({ s with grid := g }, ops)
  | none => ({ s with grid := g }, ops)

/-- `delete_row_in_sheet(row_idx_zero_based)` (app.py lines 450-474).
`deleteResult` injects the outcome of `sheet.delete_rows`, `clearResult`
of `sheet.clear`, `updateResult` of the full `sheet.update` rewrite.
Returns the state, the remote calls issued, and the propagated outcome.
On remote delete failure with a cached mirror, the fallback drops the row,
rewrites header plus remaining rows and replaces the mirror; an error in
the rewrite itself propagates before the cache assignment. -/
def delete_row_in_sheet (deleteResult clearResult updateResult : Except String Unit)
    (row_idx_zero_based : Nat) (s : AppState) :
    AppState × List RemoteOp × Except String Unit :=
  let row_num := row_idx_zero_based + 2
  match deleteResult with
  | .ok _ =>
    let g := gDeleteRow s.grid row_num
    match s.cache with
    | some df =>
      let df2 := df.eraseIdx row_idx_zero_based
      ({ grid := g, cache := some df2, indexMap := build_index_map df2 },
        [RemoteOp.deleteRowsOp row_num], .ok ())
    | none => ({ s with grid := g }, [RemoteOp.deleteRowsOp row_num], .ok ())
  | .error _ =>
    match s.cache with
    | none =>
      -- the except handler does nothing when the cache is absent and the
      -- trailing cache-update block is likewise a no-op
      (s, [RemoteOp.deleteRowsOp row_num], .ok ())
    | some df =>
      let df2 := df.eraseIdx row_idx_zero_based
      match clearResult with
      | .error e => (s, [RemoteOp.deleteRowsOp row_num, RemoteOp.clearOp], .error e)
      | .ok _ =>
        let g1 := gClear s.grid
        match updateResult with
        | .error e =>
          ({ s with grid := g1 },
            [RemoteOp.deleteRowsOp row_num, RemoteOp.clearOp,
              RemoteOp.updateAllOp (COLS :: df2)], .error e)
        | .ok _ =>
          ({ grid := gUpdateAll g1 (COLS :: df2), cache := some df2,
              indexMap := build_index_map df2 },
            [RemoteOp.deleteRowsOp row_num, RemoteOp.clearOp,
              RemoteOp.updateAllOp (COLS :: df2)], .ok ())

/-! ## Batch reconciliation: Save Assigned Tasks (app.py lines 1222-1309) -/

/-- Descending insertion of one element. -/
def insertDesc (x : Nat) : List Nat → List Nat
  | [] => [x]
  | y :: ys => if y ≤ x then x :: y :: ys else y :: insertDesc x ys

/-- Descending insertion sort. -/
def sortDesc (l : List Nat) : List Nat := l.foldr insertDesc []

/-- `sorted(set(l), reverse=True)`. -/
def pySortedSetDesc (l : List Nat) : List Nat := sortDesc l.dedup

/-- One queued cell update of the Save Assigned Tasks handler: the tuple
`(field, orig_idx, oldv, newv, task_ref)` (app.py lines 1252-1267). -/
structure SaveUpdate where
  field : String
  origIdx : Nat
  oldv : String
  newv : String
  taskRef : String

/-- The deletion phase of the Save Assigned Tasks handler (app.py lines
1270-1275): queued positions processed in descending order over the
deduplicated set, each `delete_row_in_sheet` (remote delete succeeding)
followed by an audit record. -/
def assignedDeletionPhase (email : String) (deletions : List Nat)
    (s : AppState) : AppState × List AuditRec :=
  (pySortedSetDesc deletions).foldl
    (fun acc ridx =>
      let taskName := getCol ((acc.1.cache.getD []).getD ridx []) "task"
      let st' := (delete_row_in_sheet (.ok ()) (.ok ()) (.ok ()) ridx acc.1).1
      (st', acc.2 ++ [⟨"deleted", taskName, email, "", ""⟩]))
    (s, [])

/-- The update phase of the Save Assigned Tasks handler (app.py lines
1279-1292): for each queued update, re-resolve the target through the
Signature Index using the `created_at` read from the **current** cache at
the original (pre-deletion) position, falling back to the original
position, then write the cell. Returns the state and `change_count`. -/
def assignedUpdatePhase (email : String) (updates : List SaveUpdate)
    (s : AppState) : AppState × Nat :=
  updates.foldl
    (fun acc u =>
      let ca := getCol ((acc.1.cache.getD []).getD u.origIdx []) "created_at"
      let found :=
        (find_task_index_by_signature acc.1.indexMap (some ca) (some email)
          (some u.taskRef)).getD u.origIdx
      ((update_single_cell_in_sheet acc.1 found u.field u.newv).1, acc.2 + 1))
    (s, 0)

/-- The full save phase of the Save Assigned Tasks handler: deletions
first (descending, audited), then the queued updates. -/
def assignedSavePhase (email : String) (deletions : List Nat)
    (updates : List SaveUpdate) (s : AppState) :
    AppState × List AuditRec × Nat :=
  let d := assignedDeletionPhase email deletions s
  let u := assignedUpdatePhase email updates d.1
  (u.1, d.2, u.2)

/-! ## Batch reconciliation: Save Your Tasks (app.py lines 1514-1573) -/

/-- One edited row of the Your Tasks view, as read back from the editor:
displayed task title, Assigned By field, edited status, and the delete
marker (`"Yes"`). -/
structure YourEdit where
  task : String
  assignedBy : String
  status : String
  deleteFlag : Bool

/-- Accumulated state of the Save Your Tasks classification loop. -/
structure YourLoopState where
  s : AppState
  changes : Nat
  deletions : List Nat
  errors : List String
  warnings : List String
  audits : List AuditRec

/-- Warning issued when a delete is attempted on a row the user did not
create (app.py line 1539; wording abbreviated). -/
def cannotDeleteMsg (t : String) : String :=
  "Cannot delete " ++ t ++ ": you did not create it."

/-- Per-row error when the Signature Index lookup misses (app.py line
1529; wording abbreviated). -/
def notFoundMsg (t : String) : String :=
  "Could not find row for " ++ t ++ ", skipping."

/-- One iteration of the Save Your Tasks loop (app.py lines 1519-1550):
look up the row by `(created_at, assigned_by, task)`; on a miss record an
error and continue; a delete request is queued only when the acting user
is the creator, otherwise a warning is recorded; otherwise a changed
status is written immediately (cell update plus audit). -/
def yourTasksStep (email : String) (ls : YourLoopState)
    (entry : String × YourEdit) : YourLoopState :=
  match find_task_index_by_signature ls.s.indexMap (some entry.1)
      (some entry.2.assignedBy) (some entry.2.task) with
  | none => { ls with errors := ls.errors ++ [notFoundMsg entry.2.task] }
  | some fi =>
    let original := (ls.s.cache.getD []).getD fi []
    if entry.2.deleteFlag then
      if getCol original "assigned_by" = email then
        { ls with deletions := ls.deletions ++ [fi] }
      else
        { ls with warnings := ls.warnings ++ [cannotDeleteMsg entry.2.task] }
    else
      if entry.2.status ≠ getCol original "status" then
        { ls with
            s := (update_single_cell_in_sheet ls.s fi "status" entry.2.status).1,
            changes := ls.changes + 1,
            audits := ls.audits ++
              [⟨"status_change", entry.2.task, email, getCol original "status",
                entry.2.status⟩] }
      else ls

/-- The Save Your Tasks classification loop over the paired lists of
render-time `created_at` values and edited rows. -/
def yourTasksClassify (email : String) (entries : List (String × YourEdit))
    (ls : YourLoopState) : YourLoopState :=
  entries.foldl (yourTasksStep email) ls

/-! ## Concrete states used by witnesses and counterexamples -/

/-- An empty remote grid. -/
def gEmpty : Grid := { cells := fun _ _ => "", nrows := 0 }

/-- A duplicated row: two copies in a mirror share the full exact key. -/
def rowDup : List String := ["T", "", "", "bob", "", "Pending", "t1"]

/-- Rows for the stale re-resolution scenario: three tasks created by the
same user with distinct timestamps. -/
def rowA : List String := ["A", "dA", "u@med-x.ai", "me@med-x.ai", "", "Pending", "t1"]

def rowB : List String := ["B", "dB", "u@med-x.ai", "me@med-x.ai", "", "Pending", "t2"]

def rowC : List String := ["C", "dC", "u@med-x.ai", "me@med-x.ai", "", "Pending", "t3"]

/-- Session state with mirror `[rowA, rowB, rowC]` and its index. -/
def stABC : AppState :=
  { grid := gEmpty, cache := some [rowA, rowB, rowC],
    indexMap := build_index_map [rowA, rowB, rowC] }

/-- Two rows sharing `(created_at, assigned_by)` with different titles. -/
def rowX : List String := ["X", "", "", "bob", "", "Pending", "t1"]

def rowY : List String := ["Y", "", "", "bob", "", "Pending", "t1"]

/-- State with the mirror `[rowA, rowB, rowA]`: positions 0 and 2 share
the full exact key. -/
def stDupErase : AppState :=
  { grid := gEmpty, cache := some [rowA, rowB, rowA],
    indexMap := build_index_map [rowA, rowB, rowA] }

/-- A one-row state whose remote grid agrees with the mirror cell that the
idempotence witness rewrites. -/
def stOne : AppState :=
  { grid := { cells := (fun r c => if r = 2 ∧ c = COL_IDX "status" then "Pending" else ""),
              nrows := 2 },
    cache := some [rowA], indexMap := build_index_map [rowA] }

/-- Session state with no cache yet and an empty grid. -/
def stEmpty : AppState := { grid := gEmpty, cache := none, indexMap := [] }

/-- Raw remote records with an extra column and a missing-columns row. -/
def c8raws : List (List (String × String)) :=
  [[("task", "X"), ("junk", "z")], [("status", "Done")]]

/-- A raw task dict as passed to `append_task_to_sheet`. -/
def apRow : List (String × String) :=
  [("task", "N"), ("assigned_by", "bob"), ("created_at", "t9")]

/-- The resulting state of the stale re-resolution scenario: save batch
deleting position 0 and updating the description of the row originally at
position 1 (task B), run against `stABC`. -/
def c2Result : AppState :=
  (assignedSavePhase "me@med-x.ai" [0]
    [⟨"description", 1, "dB", "NEWDESC", "B"⟩] stABC).1

/-- An edited Your Tasks row with the delete marker set. -/
def editA : YourEdit := ⟨"A", "me@med-x.ai", "Pending", true⟩

/-- An empty loop state over `stOne`. -/
def lsOne : YourLoopState := ⟨stOne, 0, [], [], [], []⟩

/-! ## Characterization devices for the Signature Index -/

/-- Position of the last row of `rows` whose full exact key is `K`
(the value the overwriting full-key insertion of `build_index_map`
leaves in the index). -/
def lastPosWith : List (List String) → Key → Option Nat
  | [], _ => none
  | r :: rest, K =>
    match lastPosWith rest K with
    | some j => some (j + 1)
    | none => if fullKeyOf r = K then some 0 else none

/-- Position of the first row of `rows` with the given `(created_at,
assigned_by)` pair (the value the `setdefault` degraded-key insertion of
`build_index_map` leaves in the index). -/
def firstPosWith : List (List String) → String → String → Option Nat
  | [], _, _ => none
  | r :: rest, a, b =>
    if getCol r "created_at" = a ∧ getCol r "assigned_by" = b then some 0
    else (firstPosWith rest a b).map (· + 1)

/-! ## Lemmas: Python dict model -/

theorem dictFind?_nil (k : Key) : dictFind? [] k = none := rfl

theorem dictFind?_cons (p : Key × Nat) (t : IndexMap) (k : Key) :
    dictFind? (p :: t) k = if p.1 = k then some p.2 else dictFind? t k := by
  by_cases h : p.1 = k <;> simp [dictFind?, List.find?_cons, h]

theorem dictFind?_insert_self (d : IndexMap) (k : Key) (v : Nat) :
    dictFind? (dictInsert d k v) k = some v := by
  induction d with
  | nil => simp [dictInsert, dictFind?_cons]
  | cons p t ih =>
    by_cases h : p.1 = k
    · simp [dictInsert, h, dictFind?_cons]
    · simp [dictInsert, h, dictFind?_cons, ih]

theorem dictFind?_insert_ne (d : IndexMap) (k k' : Key) (v : Nat) (h : k' ≠ k) :
    dictFind? (dictInsert d k v) k' = dictFind? d k' := by
  induction d with
  | nil => simp [dictInsert, dictFind?_cons, dictFind?_nil, Ne.symm h]
  | cons p t ih =>
    by_cases hp : p.1 = k
    · simp [dictInsert, hp, dictFind?_cons, Ne.symm h]
    · simp [dictInsert, hp, dictFind?_cons, ih]

theorem dictFind?_setdefault_self (d : IndexMap) (k : Key) (v : Nat) :
    dictFind? (dictSetdefault d k v) k = some ((dictFind? d k).getD v) := by
  induction d with
  | nil => simp [dictSetdefault, dictFind?_cons, dictFind?_nil]
  | cons p t ih =>
    by_cases hp : p.1 = k
    · simp [dictSetdefault, hp, dictFind?_cons]
    · simp [dictSetdefault, hp, dictFind?_cons, ih]

theorem dictFind?_setdefault_ne (d : IndexMap) (k k' : Key) (v : Nat) (h : k' ≠ k) :
    dictFind? (dictSetdefault d k v) k' = dictFind? d k' := by
  induction d with
  | nil => simp [dictSetdefault, dictFind?_cons, dictFind?_nil, Ne.symm h]
  | cons p t ih =>
    by_cases hp : p.1 = k
    · simp [dictSetdefault, hp, dictFind?_cons, Ne.symm h]
    · simp [dictSetdefault, hp, dictFind?_cons, ih]

/-! ## Lemmas: Signature Index characterization -/

theorem build_aux_full (rows : List (List String)) (a b c : String) :
    ∀ (start : Nat) (idx : IndexMap),
      dictFind? (build_index_aux rows start idx) (some a, some b, some c)
        = match lastPosWith rows (some a, some b, some c) with
          | some j => some (start + j)
          | none => dictFind? idx (some a, some b, some c) := by
  induction rows with
  | nil => intro start idx; simp [build_index_aux, lastPosWith]
  | cons r rest ih =>
    intro start idx
    rw [build_index_aux, ih]
    rw [dictFind?_setdefault_ne _ _ _ _ (by simp [deg2KeyOf])]
    rw [dictFind?_setdefault_ne _ _ _ _ (by simp [deg1KeyOf])]
    cases hrest : lastPosWith rest (some a, some b, some c) with
    | some j =>
      simp only [lastPosWith, hrest]
      exact congrArg some (by omega)
    | none =>
      simp only [lastPosWith, hrest]
      by_cases hk : fullKeyOf r = (some a, some b, some c)
      · rw [hk, dictFind?_insert_self]
        simp
      · rw [dictFind?_insert_ne _ _ _ _ (Ne.symm hk), if_neg hk]

theorem build_aux_deg1 (rows : List (List String)) (a b : String) :
    ∀ (start : Nat) (idx : IndexMap),
      dictFind? (build_index_aux rows start idx) (some a, some b, none)
        = match dictFind? idx (some a, some b, none) with
          | some v => some v
          | none => (firstPosWith rows a b).map (start + ·) := by
  induction rows with
  | nil =>
    intro start idx
    cases h : dictFind? idx (some a, some b, none) <;>
      simp [build_index_aux, firstPosWith, h]
  | cons r rest ih =>
    intro start idx
    rw [build_index_aux, ih]
    rw [dictFind?_setdefault_ne _ _ _ _ (by simp [deg2KeyOf])]
    by_cases hd : deg1KeyOf r = (some a, some b, none)
    · have hcond : getCol r "created_at" = a ∧ getCol r "assigned_by" = b := by
        simpa [deg1KeyOf] using hd
      rw [hd, dictFind?_setdefault_self]
      rw [dictFind?_insert_ne _ _ _ _ (by simp [fullKeyOf])]
      cases h0 : dictFind? idx (some a, some b, none) with
      | some v => simp [h0]
      | none => simp [h0, firstPosWith, hcond]
    · have hcond : ¬(getCol r "created_at" = a ∧ getCol r "assigned_by" = b) := by
        intro hc
        exact hd (by simp [deg1KeyOf, hc.1, hc.2])
      rw [dictFind?_setdefault_ne _ _ _ _ (Ne.symm hd)]
      rw [dictFind?_insert_ne _ _ _ _ (by simp [fullKeyOf])]
      cases h0 : dictFind? idx (some a, some b, none) with
      | some v => simp [h0]
      | none =>
        simp only [h0, firstPosWith, if_neg hcond]
        cases hfp : firstPosWith rest a b <;> simp [hfp]
        omega

theorem build_find_full (rows : List (List String)) (a b c : String) :
    dictFind? (build_index_map rows) (some a, some b, some c)
      = lastPosWith rows (some a, some b, some c) := by
  rw [build_index_map, build_aux_full]
  cases h : lastPosWith rows (some a, some b, some c) <;> simp [dictFind?_nil]

theorem build_find_deg1 (rows : List (List String)) (a b : String) :
    dictFind? (build_index_map rows) (some a, some b, none)
      = firstPosWith rows a b := by
  rw [build_index_map, build_aux_deg1]
  cases h : firstPosWith rows a b <;> simp [dictFind?_nil, h]

theorem lastPosWith_spec (rows : List (List String)) (K : Key) (j : Nat)
    (h : lastPosWith rows K = some j) :
    j < rows.length ∧ fullKeyOf (rows.getD j []) = K := by
  induction rows generalizing j with
  | nil => simp [lastPosWith] at h
  | cons r rest ih =>
    rw [lastPosWith] at h
    cases hrest : lastPosWith rest K with
    | some j' =>
      rw [hrest] at h
      obtain ⟨hl, hk⟩ := ih j' hrest
      cases h
      exact ⟨by simpa using Nat.succ_lt_succ hl, by simpa using hk⟩
    | none =>
      rw [hrest] at h
      by_cases hk : fullKeyOf r = K
      · rw [if_pos hk] at h
        cases h
        exact ⟨Nat.succ_pos _, by simpa using hk⟩
      · rw [if_neg hk] at h
        cases h

theorem lastPosWith_of_last (rows : List (List String)) (K : Key) (j : Nat)
    (hj : j < rows.length) (hkey : fullKeyOf (rows.getD j []) = K)
    (hlast : ∀ m, j < m → m < rows.length → fullKeyOf (rows.getD m []) ≠ K) :
    lastPosWith rows K = some j := by
  induction rows generalizing j with
  | nil => simp at hj
  | cons r rest ih =>
    cases j with
    | zero =>
      have hnone : lastPosWith rest K = none := by
        cases hrest : lastPosWith rest K with
        | none => rfl
        | some j' =>
          obtain ⟨hl, hk⟩ := lastPosWith_spec rest K j' hrest
          exact absurd (by simpa using hk)
            (hlast (j' + 1) (Nat.succ_pos _) (by simpa using Nat.succ_lt_succ hl))
      rw [lastPosWith, hnone, if_pos (by simpa using hkey)]
    | succ j' =>
      have hrest : lastPosWith rest K = some j' := by
        refine ih j' (by simpa using Nat.lt_of_succ_lt_succ hj) (by simpa using hkey) ?_
        intro m hm hml
        have := hlast (m + 1) (Nat.succ_lt_succ hm) (by simpa using Nat.succ_lt_succ hml)
        simpa using this
      rw [lastPosWith, hrest]

theorem lastPosWith_append_self (rows : List (List String)) (r : List String) :
    lastPosWith (rows ++ [r]) (fullKeyOf r) = some rows.length := by
  induction rows with
  | nil => simp [lastPosWith]
  | cons x rest ih =>
    rw [List.cons_append, lastPosWith, ih]
    simp

theorem build_find_full_of_distinct (rows : List (List String)) (i : Nat)
    (hi : i < rows.length)
    (hdist : ∀ j, j < rows.length → j ≠ i →
      fullKeyOf (rows.getD j []) ≠ fullKeyOf (rows.getD i [])) :
    dictFind? (build_index_map rows) (fullKeyOf (rows.getD i [])) = some i := by
  have hlast : lastPosWith rows (fullKeyOf (rows.getD i [])) = some i :=
    lastPosWith_of_last rows _ i hi rfl
      (fun m hm hml => hdist m hml (by omega))
  exact (build_find_full rows _ _ _).trans hlast

theorem firstPosWith_spec (rows : List (List String)) (a b : String) (j : Nat)
    (h : firstPosWith rows a b = some j) :
    j < rows.length ∧ getCol (rows.getD j []) "created_at" = a ∧
      getCol (rows.getD j []) "assigned_by" = b := by
  induction rows generalizing j with
  | nil => simp [firstPosWith] at h
  | cons r rest ih =>
    rw [firstPosWith] at h
    by_cases hc : getCol r "created_at" = a ∧ getCol r "assigned_by" = b
    · rw [if_pos hc] at h
      cases h
      exact ⟨Nat.succ_pos _, by simpa using hc.1, by simpa using hc.2⟩
    · rw [if_neg hc] at h
      cases hrest : firstPosWith rest a b with
      | none => rw [hrest] at h; cases h
      | some j' =>
        rw [hrest] at h
        obtain ⟨hl, h1, h2⟩ := ih j' hrest
        cases h
        exact ⟨by simpa using Nat.succ_lt_succ hl, by simpa using h1, by simpa using h2⟩

theorem firstPosWith_of_first (rows : List (List String)) (a b : String) (i : Nat)
    (hi : i < rows.length)
    (hrow : getCol (rows.getD i []) "created_at" = a ∧
      getCol (rows.getD i []) "assigned_by" = b)
    (hmin : ∀ k, k < i → ¬(getCol (rows.getD k []) "created_at" = a ∧
      getCol (rows.getD k []) "assigned_by" = b)) :
    firstPosWith rows a b = some i := by
  induction rows generalizing i with
  | nil => simp at hi
  | cons r rest ih =>
    cases i with
    | zero =>
      rw [firstPosWith, if_pos (by simpa using hrow)]
    | succ i' =>
      have hc : ¬(getCol r "created_at" = a ∧ getCol r "assigned_by" = b) := by
        have := hmin 0 (Nat.succ_pos _)
        simpa using this
      have hrest : firstPosWith rest a b = some i' := by
        refine ih i' (by simpa using Nat.lt_of_succ_lt_succ hi) (by simpa using hrow) ?_
        intro k hk
        have := hmin (k + 1) (Nat.succ_lt_succ hk)
        simpa using this
      rw [firstPosWith, if_neg hc, hrest]
      rfl

theorem firstPosWith_isSome (rows : List (List String)) (a b : String) (j : Nat)
    (hj : j < rows.length)
    (h1 : getCol (rows.getD j []) "created_at" = a)
    (h2 : getCol (rows.getD j []) "assigned_by" = b) :
    ∃ v, firstPosWith rows a b = some v := by
  induction rows generalizing j with
  | nil => simp at hj
  | cons r rest ih =>
    by_cases hc : getCol r "created_at" = a ∧ getCol r "assigned_by" = b
    · exact ⟨0, by rw [firstPosWith, if_pos hc]⟩
    · cases j with
      | zero => exact absurd ⟨by simpa using h1, by simpa using h2⟩ hc
      | succ j' =>
        obtain ⟨v, hv⟩ := ih j' (by simpa using Nat.lt_of_succ_lt_succ hj)
          (by simpa using h1) (by simpa using h2)
        exact ⟨v + 1, by rw [firstPosWith, if_neg hc, hv]; rfl⟩

/-! ## Lemmas: find probe order -/

theorem find_eq_of_exact (idx : IndexMap) (ca ab t : Option String) (v : Nat)
    (h : dictFind? idx (ca, ab, t) = some v) :
    find_task_index_by_signature idx ca ab t = some v := by
  simp [find_task_index_by_signature, h]

theorem find_eq_of_deg1 (idx : IndexMap) (ca ab t : Option String) (v : Nat)
    (h1 : dictFind? idx (ca, ab, t) = none)
    (h2 : dictFind? idx (ca, ab, none) = some v) :
    find_task_index_by_signature idx ca ab t = some v := by
  simp [find_task_index_by_signature, h1, h2]

/-! ## Lemmas: list helpers -/

theorem list_set_getD_self {α : Type} (l : List α) (k : Nat) (d : α) :
    l.set k (l.getD k d) = l := by
  induction l generalizing k with
  | nil => simp
  | cons x t ih =>
    cases k with
    | zero => simp
    | succ k' => simpa using ih k'

theorem list_getD_set_self {α : Type} (l : List α) (k : Nat) (x : α) (d : α)
    (h : k < l.length) : (l.set k x).getD k d = x := by
  induction l generalizing k with
  | nil => simp at h
  | cons y t ih =>
    cases k with
    | zero => simp
    | succ k' => simpa using ih k' (by simpa using Nat.lt_of_succ_lt_succ h)

theorem list_eraseIdx_getD_lt {α : Type} (l : List α) (k j : Nat) (d : α)
    (h : j < k) : (l.eraseIdx k).getD j d = l.getD j d := by
  induction l generalizing k j with
  | nil => simp
  | cons x t ih =>
    cases k with
    | zero => omega
    | succ k' =>
      cases j with
      | zero => simp [List.eraseIdx]
      | succ j' =>
        simpa [List.eraseIdx] using ih k' j' (by omega)

theorem list_eraseIdx_getD_ge {α : Type} (l : List α) (k m : Nat) (d : α)
    (h : k ≤ m) : (l.eraseIdx k).getD m d = l.getD (m + 1) d := by
  induction l generalizing k m with
  | nil => simp
  | cons x t ih =>
    cases k with
    | zero => simp [List.eraseIdx]
    | succ k' =>
      cases m with
      | zero => omega
      | succ m' =>
        simpa [List.eraseIdx] using ih k' m' (by omega)

theorem getCol_COLS_map (f : String → String) (c : String) (hc : c ∈ COLS) :
    getCol (COLS.map f) c = f c := by
  simp only [COLS, List.mem_cons, List.not_mem_nil, or_false] at hc
  rcases hc with h | h | h | h | h | h | h <;> subst h <;> rfl

theorem lookupD_of_not_mem (l : List (String × String)) (k d : String)
    (h : ∀ p ∈ l, p.1 ≠ k) : lookupD l k d = d := by
  have : l.find? (fun p => decide (p.1 = k)) = none := by
    rw [List.find?_eq_none]
    intro p hp
    simpa using h p hp
  simp [lookupD, this]

theorem list_getD_map (l : List (List (String × String))) (i : Nat)
    (h : i < l.length) :
    (l.map rawToRow).getD i [] = rawToRow (l.getD i []) := by
  induction l generalizing i with
  | nil => simp at h
  | cons x t ih =>
    cases i with
    | zero => simp
    | succ i' => simpa using ih i' (by simpa using Nat.lt_of_succ_lt_succ h)

theorem gUpdateCell_idem (g : Grid) (r c : Nat) (v : String) :
    gUpdateCell (gUpdateCell g r c v) r c v = gUpdateCell g r c v := by
  cases g
  simp only [gUpdateCell]
  congr 1
  funext r' c'
  by_cases h : r' = r ∧ c' = c <;> simp [h]

theorem setCol_idem (r : List String) (c v : String) :
    setCol (setCol r c v) c v = setCol r c v := by
  simp [setCol, List.set_set]

/-! ## Claim theorems -/

/-- C3: if the remote read during `load_tasks_from_sheet(force_reload=True)`
fails, the previously cached Cache Mirror and Signature Index are left
unchanged and the failure propagates to the caller. -/
theorem c3_load_failure_preserves_cache (e : String) (s : AppState) :
    (load_tasks_from_sheet true (.error e) s).1.cache = s.cache ∧
    (load_tasks_from_sheet true (.error e) s).1.indexMap = s.indexMap ∧
    (load_tasks_from_sheet true (.error e) s).2 = .error e := by
  cases hc : s.cache <;> simp [load_tasks_from_sheet, hc]

/-- C8: for every raw input, whatever extra or missing columns the raw
rows carry, the mirror produced by `load_tasks_from_sheet` has exactly the
7 canonical columns in canonical order for every row, with missing values
materialized as empty string; an empty store yields an empty mirror. -/
theorem c8_normalized_mirror (raws : List (List (String × String))) (s : AppState) :
    (load_tasks_from_sheet true (.ok raws) s).1.cache = some (raws.map rawToRow) ∧
    (load_tasks_from_sheet true (.ok raws) s).2 = .ok (raws.map rawToRow) ∧
    (raws.map rawToRow).length = raws.length ∧
    (∀ r ∈ raws.map rawToRow, r.length = COLS.length) ∧
    (∀ i c, i < raws.length → c ∈ COLS →
      getCol ((raws.map rawToRow).getD i []) c = lookupD (raws.getD i []) c "") ∧
    (∀ i c, i < raws.length → c ∈ COLS → (∀ p ∈ raws.getD i [], p.1 ≠ c) →
      getCol ((raws.map rawToRow).getD i []) c = "") ∧
    (raws = [] → raws.map rawToRow = []) := by
  refine ⟨?_, ?_, by simp, ?_, ?_, ?_, by intro h; simp [h]⟩
  · cases hc : s.cache <;> simp [load_tasks_from_sheet, hc]
  · cases hc : s.cache <;> simp [load_tasks_from_sheet, hc]
  · intro r hr
    obtain ⟨raw, _, hraw⟩ := List.mem_map.mp hr
    simp [← hraw, rawToRow]
  · intro i c hi hc
    rw [list_getD_map raws i hi, rawToRow, getCol_COLS_map _ _ hc]
  · intro i c hi hc hmiss
    rw [list_getD_map raws i hi, rawToRow, getCol_COLS_map _ _ hc]
    exact lookupD_of_not_mem _ _ _ hmiss

/-- C8 witness: normalization of a concrete raw input with an extra
column in the first record and only `status` in the second. -/
theorem c8_witness :
    (load_tasks_from_sheet true (.ok c8raws) stEmpty).1.cache = some (c8raws.map rawToRow) ∧
    ((c8raws.map rawToRow).getD 1 []).length = COLS.length ∧
    getCol ((c8raws.map rawToRow).getD 0 []) "task" = lookupD (c8raws.getD 0 []) "task" "" ∧
    getCol ((c8raws.map rawToRow).getD 0 []) "status" = "" ∧
    getCol ((c8raws.map rawToRow).getD 1 []) "status" = lookupD (c8raws.getD 1 []) "status" "" := by
  obtain ⟨h1, _, _, h4, h5, h6, _⟩ := c8_normalized_mirror c8raws stEmpty
  exact ⟨h1, h4 _ (by decide), h5 0 "task" (by decide) (by decide),
    h6 0 "status" (by decide) (by decide) (by decide),
    h5 1 "status" (by decide) (by decide)⟩

/-- C1 (amended): for a mirror whose rows have pairwise distinct full
exact keys, `find_task_index_by_signature` with a row's full exact key
returns that row's position (with duplicate exact keys the last occurrence
wins instead); and after `append_task_to_sheet` adds one row to a mirror
of N rows, the new row's exact key resolves to position N (this part holds
unconditionally, by the overwriting full-key insertion). -/
theorem c1_exact_key_lookup :
    (∀ (rows : List (List String)) (i : Nat), i < rows.length →
      (∀ j, j < rows.length → j ≠ i →
        fullKeyOf (rows.getD j []) ≠ fullKeyOf (rows.getD i [])) →
      find_task_index_by_signature (build_index_map rows)
        (some (getCol (rows.getD i []) "created_at"))
        (some (getCol (rows.getD i []) "assigned_by"))
        (some (getCol (rows.getD i []) "task")) = some i) ∧
    (∀ (headers : List String) (row : List (String × String))
        (readResult : Except String (List (List (String × String))))
        (s : AppState) (df : List (List String)),
      s.cache = some df → headers.length = COLS.length →
      (append_task_to_sheet headers row readResult s).1.cache
          = some (df ++ [headers.map (fun h => lookupD row h "")]) ∧
      (append_task_to_sheet headers row readResult s).2.2 = .ok df.length ∧
      find_task_index_by_signature
        (append_task_to_sheet headers row readResult s).1.indexMap
        (some (getCol (headers.map (fun h => lookupD row h "")) "created_at"))
        (some (getCol (headers.map (fun h => lookupD row h "")) "assigned_by"))
        (some (getCol (headers.map (fun h => lookupD row h "")) "task"))
        = some df.length) := by
  constructor
  · intro rows i hi hdist
    exact find_eq_of_exact _ _ _ _ _ (build_find_full_of_distinct rows i hi hdist)
  · intro headers row readResult s df hc _hlen
    refine ⟨?_, ?_, ?_⟩
    · simp [append_task_to_sheet, hc]
    · simp [append_task_to_sheet, hc]
    · have hcache :
          (append_task_to_sheet headers row readResult s).1.indexMap
            = build_index_map (df ++ [headers.map (fun h => lookupD row h "")]) := by
        simp [append_task_to_sheet, hc]
      rw [hcache]
      refine find_eq_of_exact _ _ _ _ _ ?_
      have := lastPosWith_append_self df (headers.map (fun h => lookupD row h ""))
      exact (build_find_full _ _ _ _).trans this

/-- C1 counterexample: in a mirror holding two identical rows (same full
exact key at positions 0 and 1), the exact-key lookup for the row at
position 0 returns position 1, not 0: the overwriting full-key insertion
makes the last occurrence win. -/
theorem c1_counterexample :
    find_task_index_by_signature (build_index_map [rowDup, rowDup])
      (some "t1") (some "bob") (some "T") = some 1 ∧ (1 : Nat) ≠ 0 := by
  exact ⟨by decide, by decide⟩

/-- C1 witness: exact-key lookup on a two-row mirror with distinct keys,
and an append to a one-row mirror resolving to position 1. -/
theorem c1_witness :
    find_task_index_by_signature (build_index_map [rowX, rowY])
      (some (getCol ([rowX, rowY].getD 0 []) "created_at"))
      (some (getCol ([rowX, rowY].getD 0 []) "assigned_by"))
      (some (getCol ([rowX, rowY].getD 0 []) "task")) = some 0 ∧
    (append_task_to_sheet COLS apRow (.ok []) stOne).1.cache
      = some ([rowA] ++ [COLS.map (fun h => lookupD apRow h "")]) ∧
    (append_task_to_sheet COLS apRow (.ok []) stOne).2.2 = .ok 1 ∧
    find_task_index_by_signature
      (append_task_to_sheet COLS apRow (.ok []) stOne).1.indexMap
      (some (getCol (COLS.map (fun h => lookupD apRow h "")) "created_at"))
      (some (getCol (COLS.map (fun h => lookupD apRow h "")) "assigned_by"))
      (some (getCol (COLS.map (fun h => lookupD apRow h "")) "task")) = some 1 := by
  obtain ⟨h1, h2⟩ := c1_exact_key_lookup
  obtain ⟨ha, hb, hfind⟩ := h2 COLS apRow (.ok []) stOne [rowA] rfl rfl
  exact ⟨h1 [rowX, rowY] 0 (by decide) (by decide), ha, hb, hfind⟩

theorem list_length_eraseIdx {α : Type} (l : List α) (k : Nat) (h : k < l.length) :
    (l.eraseIdx k).length = l.length - 1 := by
  induction l generalizing k with
  | nil => simp at h
  | cons x t ih =>
    cases k with
    | zero => simp [List.eraseIdx]
    | succ k' =>
      have h' : k' < t.length := by simpa using Nat.lt_of_succ_lt_succ h
      have := ih k' h'
      rw [List.eraseIdx_cons_succ, List.length_cons, List.length_cons, this]
      omega

/-- C5 (amended): on the success path, `delete_row_in_sheet(k)` on an
M-row mirror yields the (M-1)-row mirror in which rows before k are
unmoved and every row previously at a position greater than k is at that
position minus one, and the Signature Index is rebuilt on the new mirror;
provided the remaining rows have pairwise distinct full exact keys, the
rebuilt index maps each remaining row's key to its new position (with
duplicate keys the last occurrence wins instead). -/
theorem c5_delete_shifts (s : AppState) (df : List (List String)) (k : Nat)
    (cR uR : Except String Unit) (hc : s.cache = some df) (hk : k < df.length) :
    (delete_row_in_sheet (.ok ()) cR uR k s).1.cache = some (df.eraseIdx k) ∧
    (df.eraseIdx k).length = df.length - 1 ∧
    (∀ j, j < k → (df.eraseIdx k).getD j [] = df.getD j []) ∧
    (∀ j, k < j → j < df.length → (df.eraseIdx k).getD (j - 1) [] = df.getD j []) ∧
    (delete_row_in_sheet (.ok ()) cR uR k s).1.indexMap
      = build_index_map (df.eraseIdx k) ∧
    ((∀ p, p < (df.eraseIdx k).length → ∀ q, q < (df.eraseIdx k).length →
        fullKeyOf ((df.eraseIdx k).getD p []) = fullKeyOf ((df.eraseIdx k).getD q []) →
        p = q) →
      ∀ p, p < (df.eraseIdx k).length →
        dictFind? ((delete_row_in_sheet (.ok ()) cR uR k s).1.indexMap)
          (fullKeyOf ((df.eraseIdx k).getD p [])) = some p) := by
  have hidx : (delete_row_in_sheet (.ok ()) cR uR k s).1.indexMap
      = build_index_map (df.eraseIdx k) := by
    simp [delete_row_in_sheet, hc]
  refine ⟨by simp [delete_row_in_sheet, hc], list_length_eraseIdx df k hk, ?_, ?_, hidx, ?_⟩
  · intro j hj
    exact list_eraseIdx_getD_lt df k j [] hj
  · intro j hjk hjl
    rw [list_eraseIdx_getD_ge df k (j - 1) [] (by omega)]
    congr 1
    omega
  · intro hdist p hp
    rw [hidx]
    exact build_find_full_of_distinct (df.eraseIdx k) p hp
      (fun q hq hne keq => hne (hdist q hq p hp keq))

/-- C5 counterexample: mirror `[rowA, rowB, rowA]` (positions 0 and 2
share the full exact key); after deleting position 1 the remaining mirror
is `[rowA, rowA]`, but the rebuilt Signature Index maps the key of the
remaining row at position 0 to position 1, not 0. -/
theorem c5_counterexample :
    (delete_row_in_sheet (.ok ()) (.ok ()) (.ok ()) 1 stDupErase).1.cache
      = some [rowA, rowA] ∧
    dictFind? ((delete_row_in_sheet (.ok ()) (.ok ()) (.ok ()) 1 stDupErase).1.indexMap)
      (fullKeyOf rowA) = some 1 ∧ (1 : Nat) ≠ 0 := by
  exact ⟨by decide, by decide, by decide⟩

/-- C5 witness: deleting position 0 from the three-row mirror `stABC`
shifts rows 1 and 2 down and the rebuilt index maps the shifted row C
(now at position 1) to 1. -/
theorem c5_witness :
    (delete_row_in_sheet (.ok ()) (.ok ()) (.ok ()) 0 stABC).1.cache
      = some ([rowA, rowB, rowC].eraseIdx 0) ∧
    ([rowA, rowB, rowC].eraseIdx 0).length = [rowA, rowB, rowC].length - 1 ∧
    ([rowA, rowB, rowC].eraseIdx 0).getD 1 [] = [rowA, rowB, rowC].getD 2 [] ∧
    dictFind? ((delete_row_in_sheet (.ok ()) (.ok ()) (.ok ()) 0 stABC).1.indexMap)
      (fullKeyOf (([rowA, rowB, rowC].eraseIdx 0).getD 1 [])) = some 1 := by
  obtain ⟨h1, h2, _, h4, _, h6⟩ :=
    c5_delete_shifts stABC [rowA, rowB, rowC] 0 (.ok ()) (.ok ()) rfl (by decide)
  exact ⟨h1, h2, h4 2 (by decide) (by decide), h6 (by decide) 1 (by decide)⟩

/-- C4: `delete_row_in_sheet` always attempts the remote row delete
first; on remote failure it removes the row from the current mirror and
issues a full rewrite of header plus remaining rows, then replaces the
mirror wholesale; and if the rewrite itself fails (either the clear or
the update call), the failure surfaces to the caller while the Cache
Mirror and Signature Index are left unchanged. -/
theorem c4_delete_fallback (s : AppState) (df : List (List String)) (k : Nat)
    (hc : s.cache = some df) :
    (∀ dR cR uR : Except String Unit,
      ((delete_row_in_sheet dR cR uR k s).2.1).getD 0 RemoteOp.clearOp
        = RemoteOp.deleteRowsOp (k + 2)) ∧
    (∀ e : String,
      delete_row_in_sheet (.error e) (.ok ()) (.ok ()) k s
        = ({ grid := gUpdateAll (gClear s.grid) (COLS :: df.eraseIdx k),
             cache := some (df.eraseIdx k),
             indexMap := build_index_map (df.eraseIdx k) },
           [RemoteOp.deleteRowsOp (k + 2), RemoteOp.clearOp,
             RemoteOp.updateAllOp (COLS :: df.eraseIdx k)], .ok ())) ∧
    (∀ (e e' : String) (uR : Except String Unit),
      (delete_row_in_sheet (.error e) (.error e') uR k s).1.cache = s.cache ∧
      (delete_row_in_sheet (.error e) (.error e') uR k s).1.indexMap = s.indexMap ∧
      (delete_row_in_sheet (.error e) (.error e') uR k s).2.2 = .error e') ∧
    (∀ e e' : String,
      (delete_row_in_sheet (.error e) (.ok ()) (.error e') k s).1.cache = s.cache ∧
      (delete_row_in_sheet (.error e) (.ok ()) (.error e') k s).1.indexMap = s.indexMap ∧
      (delete_row_in_sheet (.error e) (.ok ()) (.error e') k s).2.2 = .error e') := by
  refine ⟨?_, ?_, ?_, ?_⟩
  · intro dR cR uR
    cases dR <;> cases cR <;> cases uR <;> simp [delete_row_in_sheet, hc]
  · intro e
    simp [delete_row_in_sheet, hc]
  · intro e e' uR
    refine ⟨?_, ?_, ?_⟩ <;> simp [delete_row_in_sheet, hc]
  · intro e e'
    refine ⟨?_, ?_, ?_⟩ <;> simp [delete_row_in_sheet, hc]

/-- C4 witness: the fallback rewrite on `stABC` at position 0, plus the
two rewrite-failure modes surfacing their errors with the mirror
untouched. -/
theorem c4_witness :
    ((delete_row_in_sheet (.ok ()) (.ok ()) (.ok ()) 0 stABC).2.1).getD 0 RemoteOp.clearOp
      = RemoteOp.deleteRowsOp 2 ∧
    delete_row_in_sheet (.error "no-delete") (.ok ()) (.ok ()) 0 stABC
      = ({ grid := gUpdateAll (gClear stABC.grid) (COLS :: [rowA, rowB, rowC].eraseIdx 0),
           cache := some ([rowA, rowB, rowC].eraseIdx 0),
           indexMap := build_index_map ([rowA, rowB, rowC].eraseIdx 0) },
         [RemoteOp.deleteRowsOp 2, RemoteOp.clearOp,
           RemoteOp.updateAllOp (COLS :: [rowA, rowB, rowC].eraseIdx 0)], .ok ()) ∧
    (delete_row_in_sheet (.error "no-delete") (.error "net") (.ok ()) 0 stABC).1.cache
      = stABC.cache ∧
    (delete_row_in_sheet (.error "no-delete") (.error "net") (.ok ()) 0 stABC).2.2
      = .error "net" ∧
    (delete_row_in_sheet (.error "no-delete") (.ok ()) (.error "net") 0 stABC).1.cache
      = stABC.cache ∧
    (delete_row_in_sheet (.error "no-delete") (.ok ()) (.error "net") 0 stABC).2.2
      = .error "net" := by
  obtain ⟨h1, h2, h3, h4⟩ := c4_delete_fallback stABC [rowA, rowB, rowC] 0 rfl
  exact ⟨h1 (.ok ()) (.ok ()) (.ok ()), h2 "no-delete",
    (h3 "no-delete" "net" (.ok ())).1, (h3 "no-delete" "net" (.ok ())).2.2,
    (h4 "no-delete" "net").1, (h4 "no-delete" "net").2.2⟩

/-- C6: when row i is the first row carrying its `(created_at,
assigned_by)` pair and a later row j shares that pair with a different
title, the degraded lookup `(created_at, assigned_by, None)` returns i
(degraded keys are inserted only if absent, so the first occurrence
wins); and on exact full-key collisions the last occurrence wins (the
full key is inserted with overwrite). -/
theorem c6_degraded_tiebreak :
    (∀ (rows : List (List String)) (i j : Nat),
      i < j → j < rows.length →
      getCol (rows.getD i []) "created_at" = getCol (rows.getD j []) "created_at" →
      getCol (rows.getD i []) "assigned_by" = getCol (rows.getD j []) "assigned_by" →
      getCol (rows.getD i []) "task" ≠ getCol (rows.getD j []) "task" →
      (∀ k, k < i → ¬(getCol (rows.getD k []) "created_at"
          = getCol (rows.getD i []) "created_at" ∧
        getCol (rows.getD k []) "assigned_by"
          = getCol (rows.getD i []) "assigned_by")) →
      find_task_index_by_signature (build_index_map rows)
        (some (getCol (rows.getD i []) "created_at"))
        (some (getCol (rows.getD i []) "assigned_by")) none = some i) ∧
    (∀ (rows : List (List String)) (i j : Nat),
      i < j → j < rows.length →
      fullKeyOf (rows.getD i []) = fullKeyOf (rows.getD j []) →
      (∀ m, j < m → m < rows.length →
        fullKeyOf (rows.getD m []) ≠ fullKeyOf (rows.getD j [])) →
      dictFind? (build_index_map rows) (fullKeyOf (rows.getD j [])) = some j) := by
  constructor
  · intro rows i j hij hj h1 h2 _hne hmin
    refine find_eq_of_exact _ _ _ _ _ ?_
    have : firstPosWith rows (getCol (rows.getD i []) "created_at")
        (getCol (rows.getD i []) "assigned_by") = some i :=
      firstPosWith_of_first rows _ _ i (by omega) ⟨rfl, rfl⟩ hmin
    exact (build_find_deg1 rows _ _).trans this
  · intro rows i j hij hj hkey hlast
    exact (build_find_full rows _ _ _).trans
      (lastPosWith_of_last rows _ j hj rfl hlast)

/-- C6 witness: `[rowX, rowY]` share `(created_at, assigned_by)` with
different titles and the degraded lookup returns position 0; in
`[rowDup, rowDup]` the shared exact key resolves to position 1. -/
theorem c6_witness :
    find_task_index_by_signature (build_index_map [rowX, rowY])
      (some (getCol ([rowX, rowY].getD 0 []) "created_at"))
      (some (getCol ([rowX, rowY].getD 0 []) "assigned_by")) none = some 0 ∧
    dictFind? (build_index_map [rowDup, rowDup])
      (fullKeyOf ([rowDup, rowDup].getD 1 [])) = some 1 := by
  obtain ⟨h1, h2⟩ := c6_degraded_tiebreak
  exact ⟨h1 [rowX, rowY] 0 1 (by decide) (by decide) (by decide) (by decide)
      (by decide) (by decide),
    h2 [rowDup, rowDup] 0 1 (by decide) (by decide) (by decide)
      (by intro m hm hml; exact absurd hml (by simp; omega))⟩

/-- C7: `update_single_cell_in_sheet` is idempotent: when the written
value equals the current cell value in both the mirror and the remote
grid (and the index is the mirror's rebuilt index), the call leaves the
whole state unchanged; and repeating any call with the same value a
second time is a no-op in effect. -/
theorem c7_update_idempotent :
    (∀ (s : AppState) (df : List (List String)) (i : Nat) (c v : String),
      s.cache = some df → i < df.length →
      getCol (df.getD i []) c = v →
      s.grid.cells (i + 2) (COL_IDX c) = v →
      s.indexMap = build_index_map df →
      (update_single_cell_in_sheet s i c v).1 = s) ∧
    (∀ (s : AppState) (i : Nat) (c v : String),
      (update_single_cell_in_sheet (update_single_cell_in_sheet s i c v).1 i c v).1
        = (update_single_cell_in_sheet s i c v).1) := by
  constructor
  · intro s df i c v hc hi hval hgrid hidx
    obtain ⟨g, cc, im⟩ := s
    simp only at hc hgrid hidx
    subst hc
    have hrow : setCol (df.getD i []) c v = df.getD i [] := by
      rw [setCol, ← hval, getCol]
      exact list_set_getD_self _ _ _
    have hdf : df.set i (setCol (df.getD i []) c v) = df := by
      rw [hrow]
      exact list_set_getD_self _ _ _
    have hg : gUpdateCell g (i + 2) (COL_IDX c) v = g := by
      cases g with
      | mk cells nrows =>
        simp only [gUpdateCell]
        congr 1
        funext r' c'
        by_cases h : r' = i + 2 ∧ c' = COL_IDX c
        · obtain ⟨h1, h2⟩ := h
          subst h1; subst h2
          simpa using hgrid.symm
        · simp [h]
    simp only [update_single_cell_in_sheet]
    rw [if_pos hi, hdf, hg, hidx]
  · intro s i c v
    cases hcc : s.cache with
    | none =>
      simp [update_single_cell_in_sheet, hcc, gUpdateCell_idem]
    | some df =>
      by_cases hi : i < df.length
      · have hlen : (df.set i (setCol (df.getD i []) c v)).length = df.length :=
          List.length_set df i _
        have hget : (df.set i (setCol (df.getD i []) c v)).getD i []
            = setCol (df.getD i []) c v :=
          list_getD_set_self df i _ [] hi
        simp only [update_single_cell_in_sheet, hcc, if_pos hi]
        simp only [if_pos (hlen ▸ hi), hget, setCol_idem, List.set_set,
          gUpdateCell_idem]
      · simp [update_single_cell_in_sheet, hcc, hi, gUpdateCell_idem]

/-- C7 witness: rewriting the `status` cell of row 0 of `stOne` with its
current value `Pending` leaves the state unchanged, and repeating a
fresh write is a no-op in effect. -/
theorem c7_witness :
    (update_single_cell_in_sheet stOne 0 "status" "Pending").1 = stOne ∧
    (update_single_cell_in_sheet
      (update_single_cell_in_sheet stOne 1 "description" "zzz").1
      1 "description" "zzz").1
      = (update_single_cell_in_sheet stOne 1 "description" "zzz").1 := by
  obtain ⟨h1, h2⟩ := c7_update_idempotent
  exact ⟨h1 stOne [rowA] 0 "status" "Pending" rfl (by decide) (by decide) rfl rfl,
    h2 stOne 1 "description" "zzz"⟩

/-- C10: for a position at or beyond the mirror length (and a valid
column name), `update_single_cell_in_sheet` still issues the remote cell
write at remote row position+2 and column `COL_IDX[col]`, but leaves the
Cache Mirror and Signature Index entirely unchanged and raises no local
error: the local patch is guarded by the bounds check. -/
theorem c10_out_of_bounds_update (s : AppState) (df : List (List String))
    (i : Nat) (c v : String) (hc : s.cache = some df) (hi : df.length ≤ i)
    (_hcol : c ∈ COLS) :
    update_single_cell_in_sheet s i c v
      = ({ s with grid := gUpdateCell s.grid (i + 2) (COL_IDX c) v },
         [RemoteOp.updateCellOp (i + 2) (COL_IDX c) v]) := by
  have hnot : ¬ i < df.length := by omega
  simp [update_single_cell_in_sheet, hc, hnot]

/-- C10 witness: writing position 5 of the one-row mirror `stOne` issues
the remote write at row 7, column 6, and returns the state with only the
grid changed. -/
theorem c10_witness :
    update_single_cell_in_sheet stOne 5 "status" "x"
      = ({ stOne with grid := gUpdateCell stOne.grid (5 + 2) (COL_IDX "status") "x" },
         [RemoteOp.updateCellOp (5 + 2) (COL_IDX "status") "x"]) :=
  c10_out_of_bounds_update stOne [rowA] 5 "status" "x" rfl (by decide) (by decide)

/-- C2 evaluation at the failing input: mirror `[rowA, rowB, rowC]`
(timestamps t1, t2, t3, all created by the acting user); the save batch
deletes position 0 and updates the description of the row originally at
position 1 (task B). The update phase re-reads `created_at` from the
post-deletion cache at the stale pre-deletion position 1 (obtaining t3),
re-resolves it through the degraded key to position 1, and writes the new
description into row C's cell: B keeps its old description and C is
corrupted, so the cell written is not the cell of the row originally
edited. -/
theorem c2_stale_reresolution_eval :
    c2Result.cache = some [rowB, setCol rowC "description" "NEWDESC"] ∧
    getCol ((c2Result.cache.getD []).getD 0 []) "task" = "B" ∧
    getCol ((c2Result.cache.getD []).getD 0 []) "description" = "dB" ∧
    getCol ((c2Result.cache.getD []).getD 1 []) "task" = "C" ∧
    getCol ((c2Result.cache.getD []).getD 1 []) "description" = "NEWDESC" := by
  exact ⟨by decide, by decide, by decide, by decide, by decide⟩

/-- C9: in the Save Your Tasks loop, a delete request on a row whose
creator (`assigned_by`) differs from the acting user results in a warning
only — no deletion queued, session state (mirror, index, grid) untouched
for that row — and the loop continues with the remaining entries; in the
Save Assigned Tasks loop, whenever the batch `created_at` stems from a
cache row created by the acting user (as the assigned view guarantees),
any position the Signature Index resolves belongs to a row created by the
acting user, so a cross-creator delete request cannot arise there. -/
theorem c9_delete_authorization :
    (∀ (email : String) (ls : YourLoopState) (ca : String) (e : YourEdit) (fi : Nat),
      e.deleteFlag = true →
      find_task_index_by_signature ls.s.indexMap (some ca) (some e.assignedBy)
        (some e.task) = some fi →
      getCol ((ls.s.cache.getD []).getD fi []) "assigned_by" ≠ email →
      yourTasksStep email ls (ca, e)
        = { ls with warnings := ls.warnings ++ [cannotDeleteMsg e.task] }) ∧
    (∀ (email : String) (xs ys : List (String × YourEdit))
        (entry : String × YourEdit) (ls : YourLoopState),
      yourTasksClassify email (xs ++ entry :: ys) ls
        = yourTasksClassify email ys
            (yourTasksStep email (yourTasksClassify email xs ls) entry)) ∧
    (∀ (rows : List (List String)) (a b t : String) (v j : Nat),
      j < rows.length → getCol (rows.getD j []) "created_at" = a →
      getCol (rows.getD j []) "assigned_by" = b →
      find_task_index_by_signature (build_index_map rows) (some a) (some b)
        (some t) = some v →
      v < rows.length ∧ getCol (rows.getD v []) "assigned_by" = b) := by
  refine ⟨?_, ?_, ?_⟩
  · intro email ls ca e fi hflag hfind hne
    simp only [yourTasksStep, hfind, hflag, if_true, if_neg hne]
  · intro email xs ys entry ls
    simp [yourTasksClassify, List.foldl_append]
  · intro rows a b t v j hj h1 h2 hfind
    cases p1 : dictFind? (build_index_map rows) (some a, some b, some t) with
    | some u =>
      have hu : find_task_index_by_signature (build_index_map rows) (some a)
          (some b) (some t) = some u := find_eq_of_exact _ _ _ _ _ p1
      have huv : u = v := by
        rw [hfind] at hu
        exact (Option.some.injEq _ _ ▸ hu).symm
      subst huv
      rw [build_find_full] at p1
      obtain ⟨hl, hk⟩ := lastPosWith_spec _ _ _ p1
      have : getCol (rows.getD u []) "assigned_by" = b := by
        have := congrArg (fun k : Key => k.2.1) hk
        simpa [fullKeyOf] using this
      exact ⟨hl, this⟩
    | none =>
      obtain ⟨w, hw⟩ := firstPosWith_isSome rows a b j hj h1 h2
      have hfw : find_task_index_by_signature (build_index_map rows) (some a)
          (some b) (some t) = some w :=
        find_eq_of_deg1 _ _ _ _ _ p1 ((build_find_deg1 rows a b).trans hw)
      have hwv : w = v := by
        rw [hfind] at hfw
        exact (Option.some.injEq _ _ ▸ hfw).symm
      subst hwv
      obtain ⟨hl, _, h2'⟩ := firstPosWith_spec _ _ _ _ hw
      exact ⟨hl, h2'⟩

/-- C9 witness: a delete request by a non-creator on the one-row state
`stOne` yields exactly one warning and no queued deletion; the loop
decomposition at a middle entry; and a lookup instance resolving to a row
created by the acting user. -/
theorem c9_witness :
    yourTasksStep "alice@med-x.ai" lsOne ("t1", editA)
      = { lsOne with warnings := lsOne.warnings ++ [cannotDeleteMsg editA.task] } ∧
    yourTasksClassify "alice@med-x.ai" ([] ++ ("t1", editA) :: []) lsOne
      = yourTasksClassify "alice@med-x.ai" []
          (yourTasksStep "alice@med-x.ai" (yourTasksClassify "alice@med-x.ai" [] lsOne)
            ("t1", editA)) ∧
    (0 < ([rowA] : List (List String)).length ∧
      getCol (([rowA] : List (List String)).getD 0 []) "assigned_by" = "me@med-x.ai") := by
  obtain ⟨h1, h2, h3⟩ := c9_delete_authorization
  refine ⟨h1 "alice@med-x.ai" lsOne "t1" editA 0 rfl (by decide) (by decide), ?_, ?_⟩
  · exact h2 "alice@med-x.ai" [] [] ("t1", editA) lsOne
  · exact h3 [rowA] "t1" "me@med-x.ai" "zzz" 0 0 (by decide) (by decide) (by decide)
      (by decide)

end TaskApp
